import Mathlib

/-!
Shallow embedding of the hypofuzz fuzzing core (`src/hypofuzz/hy.py`),
covering `sort_key`, the `FuzzProcess` state (pool, seen-arcs counter,
interesting-examples map, replay buffer, database pointers) and its
operations `startup`, `generate_prefix`, `run_one` and `_update`.

Byte buffers are `List ℕ` (each entry one byte), arcs are opaque naturals,
the seen-arcs `Counter` is a `Multiset` (key present iff count positive,
which is the invariant the code maintains since it only ever increments),
and the Hypothesis `ExampleDatabase` is a log of saved buffers per key.
Python exceptions that escape a call (the `AttributeError` from
`None.save`, the failed `assert`) are modelled by `Option`: `none` means
the call raised.
-/

namespace Hypofuzz

/-- Opaque coverage unit (`Arc` in `hypofuzz.cov`): only equality and
hashing are used, so we model it as a natural number. -/
abbrev Arc := ℕ

/-- `hypothesis.internal.conjecture.data.Status`: an IntEnum with
OVERRUN=0 < INVALID=1 < VALID=2 < INTERESTING=3. -/
inductive Status where
  | overrun
  | invalid
  | valid
  | interesting
deriving DecidableEq, Inhabited

/-- The integer value of a `Status`, used for the `>` comparison in
`run_one` (`result.status > Status.OVERRUN`). -/
def Status.toNat : Status → ℕ
  | .overrun => 0
  | .invalid => 1
  | .valid => 2
  | .interesting => 3

/-- `ConjectureResult` as used by hy.py: the buffer, the status, the
covered arcs (`extra_information.arcs`, a frozenset) and the
`interesting_origin` (opaque; meaningful only for INTERESTING results). -/
structure ConjectureResult where
  buffer : List ℕ
  status : Status
  arcs : Finset Arc
  interesting_origin : ℕ
deriving DecidableEq, Inhabited

/-- Python `bytes` comparison `a < b`: lexicographic, a strict proper
initial segment is smaller. -/
def bytesLt : List ℕ → List ℕ → Bool
  | [], [] => false
  | [], _ :: _ => true
  | _ :: _, [] => false
  | a :: as, b :: bs => if a < b then true else if b < a then false else bytesLt as bs

/-- `sort_key` from hy.py: shortlex order, `(len(buffer), buffer)`. -/
def sort_key (buffer : List ℕ) : ℕ × List ℕ :=
  (buffer.length, buffer)

/-- Python tuple comparison `a < b` on `(int, bytes)` pairs: first
component, then the bytes. -/
def keyLt (a b : ℕ × List ℕ) : Bool :=
  if a.1 < b.1 then true else if b.1 < a.1 then false else bytesLt a.2 b.2

/-- Python tuple comparison `a <= b`, i.e. `not (b < a)` for this total
order. -/
def keyLe (a b : ℕ × List ℕ) : Bool :=
  !keyLt b a

/-- `SortedKeyList.add` with `key=sort_key`: insert a result at its
sorted position (before the first strictly larger element). -/
def poolAdd (r : ConjectureResult) : List ConjectureResult → List ConjectureResult
  | [] => [r]
  | x :: xs =>
    if keyLt (sort_key r.buffer) (sort_key x.buffer) then r :: x :: xs
    else x :: poolAdd r xs

/-- Insert a buffer into a list sorted descending by `sort_key`. -/
def insertDesc (b : List ℕ) : List (List ℕ) → List (List ℕ)
  | [] => [b]
  | x :: xs =>
    if keyLt (sort_key x) (sort_key b) then b :: x :: xs
    else x :: insertDesc b xs

/-- `sorted(, key=sort_key, reverse=True)`: sort descending by shortlex
key (keys are distinct once the input is deduplicated, since `sort_key`
is injective, so stability does not matter). -/
def sortDesc : List (List ℕ) → List (List ℕ)
  | [] => []
  | x :: xs => insertDesc x (sortDesc xs)

/-- The Hypothesis `ExampleDatabase` as seen by one `FuzzProcess`: the
log of buffers saved under the primary key (`self._hy_database_key`) and
under the derived fuzz key (`b"fuzz_" + key`). `save` appends; `fetch`
returns the set of saved values (deduplicated). -/
structure ExampleDatabase where
  primarySaves : List (List ℕ)
  fuzzSaves : List (List ℕ)
deriving DecidableEq, Inhabited

/-- `self._database.save(self._hy_database_key, buf)`. -/
def dbSavePrimary (db : ExampleDatabase) (buf : List ℕ) : ExampleDatabase :=
  { db with primarySaves := db.primarySaves ++ [buf] }

/-- `self._database.save(self._fuzz_database_key, buf)`. -/
def dbSaveFuzz (db : ExampleDatabase) (buf : List ℕ) : ExampleDatabase :=
  { db with fuzzSaves := db.fuzzSaves ++ [buf] }

/-- `{*fetch(self._hy_database_key), *fetch(self._fuzz_database_key)}`:
the union, as a set, of everything stored under both keys. -/
def fetchUnion (db : ExampleDatabase) : List (List ℕ) :=
  (db.primarySaves ++ db.fuzzSaves).dedup

/-- `dict.setdefault(k, v)`: return the existing value for `k` and the
unchanged dict, or insert `v` and return it.  Python dicts preserve
insertion order, so a new key is appended. -/
def setdefault (m : List (ℕ × List ℕ)) (k : ℕ) (v : List ℕ) :
    List ℕ × List (ℕ × List ℕ) :=
  match m.lookup k with
  | some x => (x, m)
  | none => (v, m ++ [(k, v)])

/-- The mutable state of one `FuzzProcess`.  `database = none` models
`self._database is None` (no test database and no default database). -/
structure FuzzProcess where
  database : Option ExampleDatabase
  interesting_examples : List (ℕ × List ℕ)
  seen_arcs : Multiset Arc
  minimal_example_arcs : Finset Arc
  ninputs : ℕ
  last_new_cov_at : ℕ
  pool : List ConjectureResult
  replay_buffer : List (List ℕ)
deriving DecidableEq, Inhabited

/-- `frozenset.symmetric_difference`. -/
def symmDiffArcs (s t : Finset Arc) : Finset Arc :=
  (s \ t) ∪ (t \ s)

/-- The novelty set of §4.1: `(baselineArcs ⊕ result.coverageArcs) \ seenArcs`
(`arcs.difference(self.seen_arcs)` in `_update`; membership in the
Counter is key-membership). -/
def computeNovelty (s : FuzzProcess) (result : ConjectureResult) : Finset Arc :=
  (symmDiffArcs s.minimal_example_arcs result.arcs).filter
    (fun a => a ∉ s.seen_arcs)

/-- `FuzzProcess._update` (hy.py lines 315-347).  Returns `none` when the
code raises: with `self._database = None` a coverage-novel result hits
`None.save(...)`, an `AttributeError`.  Note that line 336 guards on
`self._database` but line 325 does not. -/
def update (s : FuzzProcess) (result : ConjectureResult) : Option FuzzProcess :=
  if result.status = Status.overrun then some s
  else
    let arcs := symmDiffArcs s.minimal_example_arcs result.arcs
    let step1 : Option FuzzProcess :=
      if (arcs.filter (fun a => a ∉ s.seen_arcs)).Nonempty then
        match s.database with
        | none => none
        | some db =>
          some { s with
                 database := some (dbSaveFuzz db result.buffer),
                 last_new_cov_at := s.ninputs,
                 pool := poolAdd result s.pool }
      else some s
    match step1 with
    | none => none
    | some s1 =>
      let s2 : FuzzProcess :=
        if result.status = Status.interesting then
          let xm := setdefault s1.interesting_examples result.interesting_origin
            result.buffer
          let s1a := { s1 with interesting_examples := xm.2 }
          match s1a.database with
          | none => s1a
          | some db =>
            if keyLe (sort_key result.buffer) (sort_key xm.1) then
              { s1a with database := some (dbSavePrimary db result.buffer) }
            else s1a
        else s1
      some { s2 with seen_arcs := s2.seen_arcs + arcs.val }

/-- The decisions drawn from `self.random` during one `generate_prefix`
call: the value of `self.random.random()`, the two `random.choices`
picks from the pool, the two `randint` cut points and the random middle
bytes.  Only used in the non-replay branches. -/
structure RandomOracle where
  randFloat : ℚ
  idxA : ℕ
  idxB : ℕ
  cutA : ℕ
  midBytes : List ℕ
  cutB : ℕ
deriving Inhabited

/-- `FuzzProcess.generate_prefix` (hy.py lines 253-294): pop the replay
buffer from the end if non-empty; else an empty buffer for the first 100
inputs or with probability 1%; else splice a pool-sampled head, up to 9
random middle bytes, and a pool-sampled tail.  Returns the buffer and
the updated state. -/
def genNext (s : FuzzProcess) (o : RandomOracle) : List ℕ × FuzzProcess :=
  match s.replay_buffer.getLast? with
  | some buf => (buf, { s with replay_buffer := s.replay_buffer.dropLast })
  | none =>
    if s.ninputs < 100 ∨ o.randFloat ≤ 1 / 100 then ([], s)
    else
      let headR := s.pool.getD (o.idxA % s.pool.length) default
      let tailR := s.pool.getD (o.idxB % s.pool.length) default
      let buffer :=
        headR.buffer.take (o.cutA % (headR.buffer.length + 1)) ++
          (o.midBytes.map (· % 256)).take 9 ++
          tailR.buffer.take (o.cutB % (tailR.buffer.length + 1))
      (buffer, s)

/-- `FuzzProcess.run_one` (hy.py lines 299-310): assert the pool is
non-empty, increment `ninputs`, generate a prefix (which may pop the
replay buffer), run the input (the `result` is what the execution bridge
returned for that prefix), and call `_update` iff the status is better
than OVERRUN.  `none` models a raised exception. -/
def run_one (s : FuzzProcess) (o : RandomOracle) (result : ConjectureResult) :
    Option FuzzProcess :=
  if s.pool = [] then none
  else
    let s0 := { s with ninputs := s.ninputs + 1 }
    let s1 := (genNext s0 o).2
    if Status.toNat Status.overrun < Status.toNat result.status then update s1 result
    else some s1

/-- `FuzzProcess.startup` (hy.py lines 226-251): assert not yet started,
run the all-zero buffer to get `firstresult`, record its arcs as the
minimal-example baseline, seed the pool, `_update`, then (if a database
is configured) load the replay buffer as the union of both keys sorted
by `sort_key` descending. -/
def startup (s : FuzzProcess) (firstresult : ConjectureResult) : Option FuzzProcess :=
  if s.pool = [] then
    let s1 := { s with
                ninputs := s.ninputs + 1,
                minimal_example_arcs := firstresult.arcs }
    let s2 := { s1 with pool := poolAdd firstresult s1.pool }
    match update s2 firstresult with
    | none => none
    | some s3 =>
      match s3.database with
      | none => some s3
      | some db => some { s3 with replay_buffer := sortDesc (fetchUnion db) }
  else none

/-- `FuzzProcess.estimated_value_of_next_run` (hy.py lines 368-374):
`1 / (1 + self.ninputs - self.last_new_cov_at)`, as an exact rational. -/
def estimated_value_of_next_run (s : FuzzProcess) : ℚ :=
  1 / (1 + (s.ninputs : ℚ) - (s.last_new_cov_at : ℚ))

/-- One scheduling step as seen by a single target: the random decisions
for `generate_prefix` plus the `ConjectureResult` the execution bridge
produced for the generated input. -/
structure RunStep where
  oracle : RandomOracle
  result : ConjectureResult
deriving Inhabited

/-- A sequence of `run_one` calls, stopping at the first raised
exception. -/
def runAll (s : FuzzProcess) : List RunStep → Option FuzzProcess
  | [] => some s
  | step :: rest =>
    match run_one s step.oracle step.result with
    | none => none
    | some s1 => runAll s1 rest

/-- The buffer of the first INTERESTING result with the given origin in
a sequence of steps, if any. -/
def firstInterestingBuffer (steps : List RunStep) (origin : ℕ) : Option (List ℕ) :=
  match steps with
  | [] => none
  | step :: rest =>
    if step.result.status = Status.interesting ∧
        step.result.interesting_origin = origin then
      some step.result.buffer
    else firstInterestingBuffer rest origin

/-- `Option.orElse` written out: the first option if present, else the
second. -/
def orElseO (a b : Option (List ℕ)) : Option (List ℕ) :=
  match a with
  | some x => some x
  | none => b

/-- A list of buffers sorted descending by shortlex key. -/
def DescSorted (l : List (List ℕ)) : Prop :=
  l.Pairwise (fun x y => keyLe (sort_key y) (sort_key x) = true)

/-- An empty example database. -/
def emptyDb : ExampleDatabase :=
  { primarySaves := [], fuzzSaves := [] }

/-- A result seeding the pool in concrete test states (as `startup` does
with the all-zero buffer). -/
def exSeed : ConjectureResult :=
  { buffer := [], status := Status.valid, arcs := ∅, interesting_origin := 0 }

/-- A ten-byte buffer. -/
def exB10 : List ℕ := List.replicate 10 0

/-- A four-byte buffer. -/
def exB4 : List ℕ := List.replicate 4 0

/-- An INTERESTING result with the ten-byte buffer, origin 0. -/
def exR10 : ConjectureResult :=
  { buffer := exB10, status := Status.interesting, arcs := ∅, interesting_origin := 0 }

/-- An INTERESTING result with the four-byte buffer, origin 0. -/
def exR4 : ConjectureResult :=
  { buffer := exB4, status := Status.interesting, arcs := ∅, interesting_origin := 0 }

/-- A freshly started target with a configured empty database. -/
def freshState : FuzzProcess :=
  { database := some emptyDb,
    interesting_examples := [],
    seen_arcs := 0,
    minimal_example_arcs := ∅,
    ninputs := 0,
    last_new_cov_at := 0,
    pool := [exSeed],
    replay_buffer := [] }

/-- The state of the worked novelty example: baseline arcs {1,2}, seen
arcs {1,2,3}. -/
def c1State : FuzzProcess :=
  { freshState with
    seen_arcs := ({1, 2, 3} : Multiset Arc),
    minimal_example_arcs := ({1, 2} : Finset Arc),
    ninputs := 5,
    last_new_cov_at := 2 }

/-- A VALID result covering arcs {1,3,4}. -/
def c1Result : ConjectureResult :=
  { buffer := [7], status := Status.valid, arcs := ({1, 3, 4} : Finset Arc),
    interesting_origin := 0 }

/-- One scheduling step delivering the ten-byte failure. -/
def exStep10 : RunStep := { oracle := default, result := exR10 }

/-- One scheduling step delivering the four-byte failure. -/
def exStep4 : RunStep := { oracle := default, result := exR4 }

/-- An unstarted target whose database already holds buffer [0,0] under
the primary key and buffer [0] under the fuzz key. -/
def c4State : FuzzProcess :=
  { freshState with
    database := some { primarySaves := [[0, 0]], fuzzSaves := [[0]] },
    pool := [] }

/-- The all-zero first result used by `startup` in the replay example. -/
def c4First : ConjectureResult :=
  { buffer := [], status := Status.valid, arcs := ∅, interesting_origin := 0 }

/-- A target three trials in, with the last novelty at trial 1. -/
def c6s : FuzzProcess :=
  { freshState with ninputs := 3, last_new_cov_at := 1 }

/-- The same target two further trials without novelty. -/
def c6s2 : FuzzProcess :=
  { freshState with ninputs := 5, last_new_cov_at := 1 }

/-- A VALID result covering the novel arc 1. -/
def c6r : ConjectureResult :=
  { buffer := [5], status := Status.valid, arcs := ({1} : Finset Arc),
    interesting_origin := 0 }

/-- The state after running `c6r` on `c6s` (a novel-coverage trial). -/
def c6sAfter : FuzzProcess :=
  (run_one c6s default c6r).getD default

/-- An INVALID result covering the novel arc 1. -/
def c7r : ConjectureResult :=
  { buffer := [5], status := Status.invalid, arcs := ({1} : Finset Arc),
    interesting_origin := 0 }

/-- A started target with no database configured at all. -/
def c8s : FuzzProcess :=
  { freshState with database := none }

/-- An OVERRUN result. -/
def exOverrun : ConjectureResult :=
  { buffer := [1], status := Status.overrun, arcs := ∅, interesting_origin := 0 }

/-- The state reached from `freshState` after delivering the ten-byte then
the four-byte failures. -/
def c3After : FuzzProcess :=
  (runAll freshState [exStep10, exStep4]).getD default

/-- The state reached by running `startup` on the replay example. -/
def c4After : FuzzProcess :=
  (startup c4State c4First).getD default

theorem bytesLt_iff_lex (a b : List ℕ) :
    bytesLt a b = true ↔ List.Lex (· < ·) a b := by
  induction a generalizing b with
  | nil =>
    cases b with
    | nil => simp [bytesLt, List.Lex.not_nil_right]
    | cons y ys => simp [bytesLt]; exact List.Lex.nil
  | cons x xs ih =>
    cases b with
    | nil => simp [bytesLt, List.Lex.not_nil_right]
    | cons y ys =>
      rcases lt_trichotomy x y with hxy | hxy | hxy
      · simp only [bytesLt, if_pos hxy]
        simp only [true_iff]
        exact List.Lex.rel hxy
      · subst hxy
        simp only [bytesLt, lt_irrefl, if_neg (lt_irrefl x)]
        rw [List.Lex.cons_iff]
        exact ih ys
      · have hb : bytesLt (x :: xs) (y :: ys) = false := by
          simp only [bytesLt, if_neg (asymm hxy), if_pos hxy]
        rw [hb]
        constructor
        · intro h
          exact absurd h Bool.false_ne_true
        · intro h
          cases h with
          | rel h2 => omega
          | cons h2 => omega

theorem bytesLt_irrefl (a : List ℕ) : bytesLt a a = false := by
  rw [Bool.eq_false_iff]
  intro h
  exact irrefl_of (List.Lex (· < ·)) a ((bytesLt_iff_lex a a).mp h)

theorem bytesLt_trans {a b c : List ℕ} (h1 : bytesLt a b = true)
    (h2 : bytesLt b c = true) : bytesLt a c = true :=
  (bytesLt_iff_lex a c).mpr
    (trans_of (List.Lex (· < ·)) ((bytesLt_iff_lex a b).mp h1)
      ((bytesLt_iff_lex b c).mp h2))

theorem bytesLt_total (a b : List ℕ) :
    bytesLt a b = true ∨ a = b ∨ bytesLt b a = true := by
  induction a generalizing b with
  | nil => cases b <;> simp [bytesLt]
  | cons x xs ih =>
    cases b with
    | nil => simp [bytesLt]
    | cons y ys =>
      rcases lt_trichotomy x y with h | h | h
      · left
        simp [bytesLt, h]
      · subst h
        rcases ih ys with h2 | h2 | h2
        · left
          simp [bytesLt, h2]
        · subst h2
          right
          left
          rfl
        · right
          right
          simp [bytesLt, h2]
      · right
        right
        simp [bytesLt, h]

theorem keyLt_irrefl (a : ℕ × List ℕ) : keyLt a a = false := by
  simp [keyLt, bytesLt_irrefl]

theorem keyLt_trans {a b c : ℕ × List ℕ} (h1 : keyLt a b = true)
    (h2 : keyLt b c = true) : keyLt a c = true := by
  unfold keyLt at h1 h2 ⊢
  split_ifs at h1 h2 ⊢ <;>
    first
      | rfl
      | exact bytesLt_trans h1 h2
      | (simp_all
         omega)

theorem keyLt_total (a b : ℕ × List ℕ) :
    keyLt a b = true ∨ a = b ∨ keyLt b a = true := by
  rcases lt_trichotomy a.1 b.1 with h | h | h
  · exact Or.inl (by unfold keyLt; rw [if_pos h])
  · rcases bytesLt_total a.2 b.2 with h2 | h2 | h2
    · refine Or.inl ?_
      unfold keyLt
      rw [if_neg (by omega), if_neg (by omega)]
      exact h2
    · exact Or.inr (Or.inl (Prod.ext h h2))
    · refine Or.inr (Or.inr ?_)
      unfold keyLt
      rw [if_neg (by omega), if_neg (by omega)]
      exact h2
  · exact Or.inr (Or.inr (by unfold keyLt; rw [if_pos h]))

theorem keyLt_asymm {a b : ℕ × List ℕ} (h : keyLt a b = true) :
    keyLt b a = false := by
  rw [Bool.eq_false_iff]
  intro h2
  have := keyLt_trans h h2
  rw [keyLt_irrefl] at this
  exact Bool.false_ne_true this

theorem keyLe_refl (a : ℕ × List ℕ) : keyLe a a = true := by
  simp [keyLe, keyLt_irrefl]

theorem keyLe_iff (a b : ℕ × List ℕ) : keyLe a b = true ↔ keyLt b a = false := by
  simp [keyLe]

theorem keyLe_of_keyLt {a b : ℕ × List ℕ} (h : keyLt a b = true) :
    keyLe a b = true :=
  (keyLe_iff a b).mpr (keyLt_asymm h)

theorem keyLe_trans {a b c : ℕ × List ℕ} (h1 : keyLe a b = true)
    (h2 : keyLe b c = true) : keyLe a c = true := by
  rw [keyLe_iff] at h1 h2 ⊢
  rw [Bool.eq_false_iff]
  intro hca
  rcases keyLt_total a b with h | h | h
  · have := keyLt_trans hca h
    rw [h2] at this
    exact Bool.false_ne_true this
  · subst h
    rw [h2] at hca
    exact Bool.false_ne_true hca
  · rw [h1] at h
    exact Bool.false_ne_true h

theorem mem_insertDesc {x b : List ℕ} {l : List (List ℕ)} :
    x ∈ insertDesc b l ↔ x = b ∨ x ∈ l := by
  induction l with
  | nil => simp [insertDesc]
  | cons y ys ih =>
    unfold insertDesc
    split_ifs with hlt
    · simp [List.mem_cons]
    · simp only [List.mem_cons, ih]
      tauto

theorem insertDesc_sorted {b : List ℕ} {l : List (List ℕ)} (h : DescSorted l) :
    DescSorted (insertDesc b l) := by
  induction l with
  | nil => simp [insertDesc, DescSorted]
  | cons x xs ih =>
    rw [DescSorted, List.pairwise_cons] at h
    unfold insertDesc
    split_ifs with hlt
    · rw [DescSorted, List.pairwise_cons]
      constructor
      · intro y hy
        rcases List.mem_cons.mp hy with rfl | hy2
        · exact keyLe_of_keyLt hlt
        · exact keyLe_trans (h.1 y hy2) (keyLe_of_keyLt hlt)
      · rw [List.pairwise_cons]
        exact ⟨h.1, h.2⟩
    · rw [DescSorted, List.pairwise_cons]
      constructor
      · intro y hy
        rcases mem_insertDesc.mp hy with rfl | hy2
        · rw [keyLe_iff]
          exact Bool.not_eq_true _ ▸ (by simpa using hlt)
        · exact h.1 y hy2
      · exact ih h.2

theorem sortDesc_sorted (l : List (List ℕ)) : DescSorted (sortDesc l) := by
  induction l with
  | nil => simp [sortDesc, DescSorted]
  | cons x xs ih => exact insertDesc_sorted ih

theorem mem_sortDesc {x : List ℕ} {l : List (List ℕ)} :
    x ∈ sortDesc l ↔ x ∈ l := by
  induction l with
  | nil => simp [sortDesc]
  | cons y ys ih =>
    unfold sortDesc
    rw [mem_insertDesc, ih, List.mem_cons]

theorem getLast_min {l : List (List ℕ)} (h : DescSorted l) {m : List ℕ}
    (hm : l.getLast? = some m) :
    ∀ x ∈ l, keyLe (sort_key m) (sort_key x) = true := by
  induction l with
  | nil => cases hm
  | cons a t ih =>
    cases t with
    | nil =>
      simp only [List.getLast?_singleton, Option.some.injEq] at hm
      subst hm
      intro x hx
      rcases List.mem_singleton.mp hx with rfl
      exact keyLe_refl _
    | cons b t2 =>
      rw [List.getLast?_cons_cons] at hm
      rw [DescSorted, List.pairwise_cons] at h
      intro x hx
      rcases List.mem_cons.mp hx with rfl | hx2
      · exact h.1 m (List.mem_of_mem_getLast? hm)
      · exact ih h.2 hm x hx2

theorem genNext_replay {s : FuzzProcess} {o : RandomOracle} {m : List ℕ}
    (h : s.replay_buffer.getLast? = some m) :
    genNext s o = (m, { s with replay_buffer := s.replay_buffer.dropLast }) := by
  unfold genNext
  rw [h]

theorem genNext_fields (s : FuzzProcess) (o : RandomOracle) :
    (genNext s o).2.database = s.database ∧
    (genNext s o).2.interesting_examples = s.interesting_examples ∧
    (genNext s o).2.seen_arcs = s.seen_arcs ∧
    (genNext s o).2.minimal_example_arcs = s.minimal_example_arcs ∧
    (genNext s o).2.ninputs = s.ninputs ∧
    (genNext s o).2.last_new_cov_at = s.last_new_cov_at ∧
    (genNext s o).2.pool = s.pool := by
  unfold genNext
  cases s.replay_buffer.getLast? with
  | some m => simp
  | none =>
    split_ifs <;> simp

theorem seen_toFinset_union (s : FuzzProcess) (r : ConjectureResult) :
    (s.seen_arcs + (symmDiffArcs s.minimal_example_arcs r.arcs).val).toFinset
      = s.seen_arcs.toFinset ∪ computeNovelty s r := by
  ext a
  simp only [Multiset.mem_toFinset, Multiset.mem_add, Finset.mem_union, computeNovelty,
    Finset.mem_filter, Finset.mem_val]
  tauto

theorem lookup_singleton (k j : ℕ) (v : List ℕ) :
    List.lookup j [(k, v)] = if j = k then some v else none := by
  by_cases h : j = k
  · simp [List.lookup, h]
  · have hne : (j == k) = false := by simp [h]
    simp [List.lookup, hne, h]

theorem setdefault_fst (m : List (ℕ × List ℕ)) (k : ℕ) (v : List ℕ) :
    (setdefault m k v).1 = (m.lookup k).getD v := by
  unfold setdefault
  cases h : m.lookup k <;> simp

theorem setdefault_lookup (m : List (ℕ × List ℕ)) (k j : ℕ) (v : List ℕ) :
    ((setdefault m k v).2).lookup j
      = orElseO (m.lookup j) (if j = k then some v else none) := by
  unfold setdefault
  cases h : m.lookup k with
  | some x =>
    by_cases hk : j = k
    · subst hk
      rw [h]
      rfl
    · cases h2 : m.lookup j <;> simp [orElseO, hk, h2]
  | none =>
    rw [List.lookup_append, lookup_singleton]
    cases m.lookup j <;> simp [orElseO, Option.or]

theorem lookup_none_keys {m : List (ℕ × List ℕ)} {k : ℕ} (h : m.lookup k = none) :
    k ∉ m.map Prod.fst := by
  induction m with
  | nil => simp
  | cons q t ih =>
    obtain ⟨a, b⟩ := q
    rw [List.lookup_cons] at h
    by_cases hk : k = a
    · subst hk
      simp at h
    · have hne : (k == a) = false := by simp [hk]
      simp only [hne] at h
      simp only [List.map_cons, List.mem_cons]
      push_neg
      exact ⟨hk, ih h⟩

theorem setdefault_nodupkeys {m : List (ℕ × List ℕ)} {k : ℕ} {v : List ℕ}
    (h : (m.map Prod.fst).Nodup) :
    (((setdefault m k v).2).map Prod.fst).Nodup := by
  unfold setdefault
  cases hl : m.lookup k with
  | some x => simpa using h
  | none =>
    simp only [List.map_append, List.map_cons, List.map_nil]
    rw [List.nodup_append]
    refine ⟨h, List.nodup_singleton k, ?_⟩
    intro a ha hb
    rcases List.mem_singleton.mp hb with rfl
    exact lookup_none_keys hl ha

theorem update_eq (s : FuzzProcess) (db : ExampleDatabase) (r : ConjectureResult)
    (hdb : s.database = some db) (hst : r.status ≠ Status.overrun) :
    update s r = some
      { database := some
          (if r.status = Status.interesting ∧
              keyLe (sort_key r.buffer)
                (sort_key ((s.interesting_examples.lookup r.interesting_origin).getD
                  r.buffer)) = true
           then dbSavePrimary
             (if (computeNovelty s r).Nonempty then dbSaveFuzz db r.buffer else db)
             r.buffer
           else if (computeNovelty s r).Nonempty then dbSaveFuzz db r.buffer else db),
        interesting_examples :=
          if r.status = Status.interesting
          then (setdefault s.interesting_examples r.interesting_origin r.buffer).2
          else s.interesting_examples,
        seen_arcs := s.seen_arcs + (symmDiffArcs s.minimal_example_arcs r.arcs).val,
        minimal_example_arcs := s.minimal_example_arcs,
        ninputs := s.ninputs,
        last_new_cov_at :=
          if (computeNovelty s r).Nonempty then s.ninputs else s.last_new_cov_at,
        pool := if (computeNovelty s r).Nonempty then poolAdd r s.pool else s.pool,
        replay_buffer := s.replay_buffer } := by
  have hnv : Finset.filter (fun a => a ∉ s.seen_arcs)
      (symmDiffArcs s.minimal_example_arcs r.arcs) = computeNovelty s r := rfl
  by_cases hnov : (computeNovelty s r).Nonempty <;>
    by_cases hint : r.status = Status.interesting
  · rcases hkey : keyLe (sort_key r.buffer)
      (sort_key ((s.interesting_examples.lookup r.interesting_origin).getD r.buffer))
      with _ | _
    · simp [update, hnv, hdb, hst, hnov, hint, setdefault_fst, hkey]
    · simp [update, hnv, hdb, hst, hnov, hint, setdefault_fst, hkey]
  · simp [update, hnv, hdb, hst, hnov, hint]
  · rcases hkey : keyLe (sort_key r.buffer)
      (sort_key ((s.interesting_examples.lookup r.interesting_origin).getD r.buffer))
      with _ | _
    · simp [update, hnv, hdb, hst, hnov, hint, setdefault_fst, hkey]
    · simp [update, hnv, hdb, hst, hnov, hint, setdefault_fst, hkey]
  · simp [update, hnv, hdb, hst, hnov, hint]

theorem update_eq_overrun (s : FuzzProcess) (r : ConjectureResult)
    (hov : r.status = Status.overrun) : update s r = some s := by
  simp [update, hov]

theorem update_nodb_crash (s : FuzzProcess) (r : ConjectureResult)
    (hdb : s.database = none) (hst : r.status ≠ Status.overrun)
    (hnov : (computeNovelty s r).Nonempty) : update s r = none := by
  have hnv : Finset.filter (fun a => a ∉ s.seen_arcs)
      (symmDiffArcs s.minimal_example_arcs r.arcs) = computeNovelty s r := rfl
  simp [update, hnv, hdb, hst, hnov]

theorem update_eq_nodb (s : FuzzProcess) (r : ConjectureResult)
    (hdb : s.database = none) (hst : r.status ≠ Status.overrun)
    (hnov : ¬(computeNovelty s r).Nonempty) :
    update s r = some
      { s with
        interesting_examples :=
          if r.status = Status.interesting
          then (setdefault s.interesting_examples r.interesting_origin r.buffer).2
          else s.interesting_examples,
        seen_arcs := s.seen_arcs + (symmDiffArcs s.minimal_example_arcs r.arcs).val } := by
  have hnv : Finset.filter (fun a => a ∉ s.seen_arcs)
      (symmDiffArcs s.minimal_example_arcs r.arcs) = computeNovelty s r := rfl
  by_cases hint : r.status = Status.interesting <;>
    simp [update, hnv, hdb, hst, hnov, hint]

theorem update_some_fields {s s' : FuzzProcess} {r : ConjectureResult}
    (h : update s r = some s') :
    s'.ninputs = s.ninputs ∧ s'.minimal_example_arcs = s.minimal_example_arcs ∧
    s'.replay_buffer = s.replay_buffer ∧
    s'.interesting_examples =
      (if r.status = Status.interesting
       then (setdefault s.interesting_examples r.interesting_origin r.buffer).2
       else s.interesting_examples) := by
  by_cases hov : r.status = Status.overrun
  · rw [update_eq_overrun s r hov] at h
    injection h with h2
    subst h2
    have hni : r.status ≠ Status.interesting := by
      rw [hov]
      intro hc
      cases hc
    simp [hni]
  · cases hdb : s.database with
    | some db =>
      rw [update_eq s db r hdb hov] at h
      injection h with h2
      subst h2
      exact ⟨rfl, rfl, rfl, rfl⟩
    | none =>
      by_cases hnov : (computeNovelty s r).Nonempty
      · rw [update_nodb_crash s r hdb hov hnov] at h
        cases h
      · rw [update_eq_nodb s r hdb hov hnov] at h
        injection h with h2
        subst h2
        exact ⟨rfl, rfl, rfl, rfl⟩

theorem update_novelty_reset {s s' : FuzzProcess} {r : ConjectureResult}
    (h : update s r = some s') (hst : r.status ≠ Status.overrun)
    (hnov : (computeNovelty s r).Nonempty) :
    s'.last_new_cov_at = s.ninputs ∧ s'.ninputs = s.ninputs := by
  cases hdb : s.database with
  | none =>
    rw [update_nodb_crash s r hdb hst hnov] at h
    cases h
  | some db =>
    rw [update_eq s db r hdb hst] at h
    injection h with h2
    subst h2
    simp [hnov]

theorem orElseO_none (a : Option (List ℕ)) : orElseO a none = a := by
  cases a <;> rfl

theorem orElseO_none_left (b : Option (List ℕ)) : orElseO none b = b := rfl

theorem firstInterestingBuffer_cons (step : RunStep) (rest : List RunStep) (j : ℕ) :
    firstInterestingBuffer (step :: rest) j
      = if step.result.status = Status.interesting ∧
            step.result.interesting_origin = j
        then some step.result.buffer
        else firstInterestingBuffer rest j := by
  rw [firstInterestingBuffer]

theorem orElseO_assoc (a b c : Option (List ℕ)) :
    orElseO (orElseO a b) c = orElseO a (orElseO b c) := by
  cases a <;> rfl

theorem status_ne_overrun_of_gate {st : Status}
    (h : Status.toNat Status.overrun < Status.toNat st) : st ≠ Status.overrun := by
  intro hc
  rw [hc] at h
  exact lt_irrefl _ h

theorem computeNovelty_congr {s t : FuzzProcess}
    (hmin : t.minimal_example_arcs = s.minimal_example_arcs)
    (hseen : t.seen_arcs = s.seen_arcs) (r : ConjectureResult) :
    computeNovelty t r = computeNovelty s r := by
  unfold computeNovelty symmDiffArcs
  rw [hmin, hseen]

theorem mem_poolAdd (r : ConjectureResult) (l : List ConjectureResult) :
    r ∈ poolAdd r l := by
  induction l with
  | nil => exact List.mem_singleton.mpr rfl
  | cons x xs ih =>
    unfold poolAdd
    split_ifs
    · exact List.mem_cons_self r (x :: xs)
    · exact List.mem_cons_of_mem x ih

theorem run_one_update_eq {s : FuzzProcess} {o : RandomOracle} {r : ConjectureResult}
    (hpool : s.pool ≠ [])
    (hgate : Status.toNat Status.overrun < Status.toNat r.status) :
    run_one s o r = update (genNext { s with ninputs := s.ninputs + 1 } o).2 r := by
  unfold run_one
  rw [if_neg hpool, if_pos hgate]

theorem run_one_overrun_eq {s : FuzzProcess} {o : RandomOracle} {r : ConjectureResult}
    (hpool : s.pool ≠ []) (hov : r.status = Status.overrun) :
    run_one s o r = some (genNext { s with ninputs := s.ninputs + 1 } o).2 := by
  unfold run_one
  rw [if_neg hpool, hov, if_neg (lt_irrefl _)]

theorem run_one_fields {s s' : FuzzProcess} {o : RandomOracle} {r : ConjectureResult}
    (h : run_one s o r = some s') :
    s'.ninputs = s.ninputs + 1 ∧
    s'.minimal_example_arcs = s.minimal_example_arcs ∧
    s'.interesting_examples =
      (if r.status = Status.interesting
       then (setdefault s.interesting_examples r.interesting_origin r.buffer).2
       else s.interesting_examples) := by
  by_cases hpool : s.pool = []
  · unfold run_one at h
    rw [if_pos hpool] at h
    cases h
  · obtain ⟨hdb, hmap, hseen, hmin, hnin, hlast, hpl⟩ :=
      genNext_fields { s with ninputs := s.ninputs + 1 } o
    by_cases hgate : Status.toNat Status.overrun < Status.toNat r.status
    · rw [run_one_update_eq hpool hgate] at h
      obtain ⟨ha, hb, hc, hd⟩ := update_some_fields h
      refine ⟨?_, ?_, ?_⟩
      · rw [ha, hnin]
      · rw [hb, hmin]
      · rw [hd, hmap]
    · have hov : r.status = Status.overrun := by
        cases hst : r.status <;> simp [hst, Status.toNat] at hgate ⊢
      rw [run_one_overrun_eq hpool hov] at h
      injection h with h2
      subst h2
      have hni : r.status ≠ Status.interesting := by
        rw [hov]
        intro hc
        cases hc
      refine ⟨by rw [hnin], by rw [hmin], ?_⟩
      rw [if_neg hni, hmap]

theorem runAll_lookup {steps : List RunStep} {s s' : FuzzProcess}
    (h : runAll s steps = some s') (j : ℕ) :
    s'.interesting_examples.lookup j
      = orElseO (s.interesting_examples.lookup j) (firstInterestingBuffer steps j) := by
  induction steps generalizing s with
  | nil =>
    unfold runAll at h
    injection h with h2
    subst h2
    rw [show firstInterestingBuffer [] j = none from rfl, orElseO_none]
  | cons step rest ih =>
    unfold runAll at h
    cases hr : run_one s step.oracle step.result with
    | none =>
      rw [hr] at h
      cases h
    | some s1 =>
      rw [hr] at h
      have hmap := (run_one_fields hr).2.2
      rw [ih h, hmap]
      by_cases hint : step.result.status = Status.interesting
      · rw [if_pos hint, setdefault_lookup, orElseO_assoc]
        congr 1
        rw [firstInterestingBuffer_cons]
        by_cases hj : step.result.interesting_origin = j
        · have hj2 : j = step.result.interesting_origin := hj.symm
          rw [if_pos hj2, if_pos ⟨hint, hj⟩]
          rfl
        · have hj2 : ¬(j = step.result.interesting_origin) := fun hc => hj hc.symm
          rw [if_neg hj2, if_neg (fun hc => hj hc.2)]
          exact orElseO_none_left _
      · rw [if_neg hint]
        congr 1
        rw [firstInterestingBuffer_cons, if_neg (fun hc => hint hc.1)]

theorem runAll_nodup {steps : List RunStep} {s s' : FuzzProcess}
    (h : runAll s steps = some s')
    (hn : (s.interesting_examples.map Prod.fst).Nodup) :
    (s'.interesting_examples.map Prod.fst).Nodup := by
  induction steps generalizing s with
  | nil =>
    unfold runAll at h
    injection h with h2
    subst h2
    exact hn
  | cons step rest ih =>
    unfold runAll at h
    cases hr : run_one s step.oracle step.result with
    | none =>
      rw [hr] at h
      cases h
    | some s1 =>
      rw [hr] at h
      refine ih h ?_
      rw [(run_one_fields hr).2.2]
      split_ifs
      · exact setdefault_nodupkeys hn
      · exact hn

/-- C1: for every execution result with status better than OVERRUN (and a
configured database), the novelty set equals
`(baselineArcs ⊕ result.coverageArcs) \ seenArcs`, the result is admitted to
the pool if and only if that set is non-empty, and afterwards the set of seen
arcs equals its previous value united with the novel arcs. -/
theorem fuzz_c1_novelty_admission (s : FuzzProcess) (db : ExampleDatabase)
    (r : ConjectureResult) (hdb : s.database = some db)
    (hst : r.status ≠ Status.overrun) :
    computeNovelty s r
        = (symmDiffArcs s.minimal_example_arcs r.arcs).filter
            (fun a => a ∉ s.seen_arcs) ∧
    ∃ t, update s r = some t ∧
      t.pool = (if (computeNovelty s r).Nonempty then poolAdd r s.pool else s.pool) ∧
      ((computeNovelty s r).Nonempty → r ∈ t.pool) ∧
      (¬(computeNovelty s r).Nonempty → t.pool = s.pool) ∧
      t.seen_arcs.toFinset = s.seen_arcs.toFinset ∪ computeNovelty s r := by
  refine ⟨rfl, _, update_eq s db r hdb hst, rfl, ?_, ?_, ?_⟩
  · intro hnov
    show r ∈ (if (computeNovelty s r).Nonempty then poolAdd r s.pool else s.pool)
    rw [if_pos hnov]
    exact mem_poolAdd r s.pool
  · intro hnov
    show (if (computeNovelty s r).Nonempty then poolAdd r s.pool else s.pool) = s.pool
    rw [if_neg hnov]
  · exact seen_toFinset_union s r

/-- Witness for C1 at the worked example: baseline arcs {1,2}, seen arcs
{1,2,3}, result arcs {1,3,4}; novelty is {4}, the result is admitted, and
the seen-arc set grows to {1,2,3,4}. -/
theorem fuzz_c1_novelty_admission_witness :
    (c1State.database = some emptyDb ∧ c1Result.status ≠ Status.overrun) ∧
    computeNovelty c1State c1Result = ({4} : Finset Arc) ∧
    (update c1State c1Result).map (fun t => t.seen_arcs.toFinset)
      = some ({1, 2, 3, 4} : Finset Arc) ∧
    (computeNovelty c1State c1Result
        = (symmDiffArcs c1State.minimal_example_arcs c1Result.arcs).filter
            (fun a => a ∉ c1State.seen_arcs) ∧
     ∃ t, update c1State c1Result = some t ∧
       t.pool = (if (computeNovelty c1State c1Result).Nonempty
                 then poolAdd c1Result c1State.pool else c1State.pool) ∧
       ((computeNovelty c1State c1Result).Nonempty → c1Result ∈ t.pool) ∧
       (¬(computeNovelty c1State c1Result).Nonempty → t.pool = c1State.pool) ∧
       t.seen_arcs.toFinset
         = c1State.seen_arcs.toFinset ∪ computeNovelty c1State c1Result) :=
  ⟨⟨rfl, by decide⟩, by decide, by decide,
    fuzz_c1_novelty_admission c1State emptyDb c1Result rfl (by decide)⟩

/-- C2 counterexample: with one origin and buffers of length 10 then length 4
(the length-4 one arriving second), the length-10 buffer IS saved under the
primary key (it is the first failure for its origin), so it is not true that
only the length-4 buffer is ever saved there. -/
theorem fuzz_c2_dedup_counterexample :
    exR10.status = Status.interesting ∧ exR4.status = Status.interesting ∧
    exR10.interesting_origin = exR4.interesting_origin ∧
    exR10.buffer.length = 10 ∧ exR4.buffer.length = 4 ∧
    ((update freshState exR10).bind (fun t => update t exR4)).map
        (fun t => Option.map ExampleDatabase.primarySaves t.database)
      = some (some [exB10, exB4]) := by
  exact ⟨rfl, rfl, rfl, by decide, by decide, by decide⟩

/-- C2 (amended): an INTERESTING result is saved under the primary database
key iff its buffer is ≤ by sortKey than the map entry for its origin — which
is the FIRST buffer recorded for that origin (the result's own buffer when
the origin is new), not the smallest one. -/
theorem fuzz_c2_dedup_amended (s : FuzzProcess) (db : ExampleDatabase)
    (r : ConjectureResult) (hdb : s.database = some db)
    (hint : r.status = Status.interesting) :
    ∃ t db2, update s r = some t ∧ t.database = some db2 ∧
      db2.primarySaves = db.primarySaves ++
        (if keyLe (sort_key r.buffer)
            (sort_key ((s.interesting_examples.lookup r.interesting_origin).getD
              r.buffer)) = true
         then [r.buffer] else []) := by
  have hst : r.status ≠ Status.overrun := by
    rw [hint]
    intro hc
    cases hc
  refine ⟨_, _, update_eq s db r hdb hst, rfl, ?_⟩
  by_cases hkey : keyLe (sort_key r.buffer)
      (sort_key ((s.interesting_examples.lookup r.interesting_origin).getD
        r.buffer)) = true
  · rw [if_pos ⟨hint, hkey⟩, if_pos hkey]
    show ((if (computeNovelty s r).Nonempty
          then dbSaveFuzz db r.buffer else db).primarySaves) ++ [r.buffer]
        = db.primarySaves ++ [r.buffer]
    congr 1
    split_ifs <;> rfl
  · rw [if_neg (fun hc => hkey hc.2), if_neg hkey, List.append_nil]
    split_ifs <;> rfl

/-- Witness for C2 (amended): with the ten-byte buffer already recorded as
the first failure for origin 0, the four-byte result is ≤ it by sortKey and
is therefore saved under the primary key. -/
theorem fuzz_c2_dedup_amended_witness :
    ({ freshState with interesting_examples := [(0, exB10)] }.database
        = some emptyDb ∧ exR4.status = Status.interesting) ∧
    ∃ t db2,
      update { freshState with interesting_examples := [(0, exB10)] } exR4
        = some t ∧
      t.database = some db2 ∧
      db2.primarySaves = emptyDb.primarySaves ++
        (if keyLe (sort_key exR4.buffer)
            (sort_key (({ freshState with
              interesting_examples := [(0, exB10)]
            }.interesting_examples.lookup exR4.interesting_origin).getD
              exR4.buffer)) = true
         then [exR4.buffer] else []) :=
  ⟨⟨rfl, rfl⟩,
    fuzz_c2_dedup_amended { freshState with interesting_examples := [(0, exB10)] }
      emptyDb exR4 rfl rfl⟩

/-- C10: the first INTERESTING result observed for a new interestingOrigin is
always saved under the primary database key, because the map entry is created
from that very result's buffer before the ≤-by-sortKey comparison. -/
theorem fuzz_c10_first_failure_saved (s : FuzzProcess) (db : ExampleDatabase)
    (r : ConjectureResult) (hdb : s.database = some db)
    (hint : r.status = Status.interesting)
    (hfirst : s.interesting_examples.lookup r.interesting_origin = none) :
    ∃ t db2, update s r = some t ∧ t.database = some db2 ∧
      db2.primarySaves = db.primarySaves ++ [r.buffer] := by
  have hst : r.status ≠ Status.overrun := by
    rw [hint]
    intro hc
    cases hc
  have hkey : keyLe (sort_key r.buffer)
      (sort_key ((s.interesting_examples.lookup r.interesting_origin).getD
        r.buffer)) = true := by
    rw [hfirst]
    exact keyLe_refl _
  refine ⟨_, _, update_eq s db r hdb hst, rfl, ?_⟩
  rw [if_pos ⟨hint, hkey⟩]
  show ((if (computeNovelty s r).Nonempty
        then dbSaveFuzz db r.buffer else db).primarySaves) ++ [r.buffer]
      = db.primarySaves ++ [r.buffer]
  congr 1
  split_ifs <;> rfl

/-- Witness for C10: the very first (ten-byte) failure for origin 0 lands
under the primary key regardless of its size. -/
theorem fuzz_c10_first_failure_saved_witness :
    (freshState.database = some emptyDb ∧ exR10.status = Status.interesting ∧
      freshState.interesting_examples.lookup exR10.interesting_origin = none) ∧
    ∃ t db2, update freshState exR10 = some t ∧ t.database = some db2 ∧
      db2.primarySaves = emptyDb.primarySaves ++ [exR10.buffer] :=
  ⟨⟨rfl, rfl, rfl⟩,
    fuzz_c10_first_failure_saved freshState emptyDb exR10 rfl rfl rfl⟩

/-- C5: `sort_key` induces the shortlex total order on byte buffers:
`sortKey b1 < sortKey b2` iff `b1` is shorter, or the lengths are equal and
`b1` lexicographically precedes `b2`; and the order is trichotomous,
transitive and irreflexive. -/
theorem fuzz_c5_sort_key_order (b1 b2 b3 : List ℕ) :
    (keyLt (sort_key b1) (sort_key b2) = true ↔
      b1.length < b2.length ∨
        (b1.length = b2.length ∧ List.Lex (· < ·) b1 b2)) ∧
    (keyLt (sort_key b1) (sort_key b2) = true ∨ b1 = b2 ∨
      keyLt (sort_key b2) (sort_key b1) = true) ∧
    (keyLt (sort_key b1) (sort_key b2) = true →
      keyLt (sort_key b2) (sort_key b3) = true →
      keyLt (sort_key b1) (sort_key b3) = true) ∧
    keyLt (sort_key b1) (sort_key b1) = false := by
  refine ⟨?_, ?_, fun h1 h2 => keyLt_trans h1 h2, keyLt_irrefl _⟩
  · unfold keyLt sort_key
    rcases lt_trichotomy b1.length b2.length with h | h | h
    · simp [h]
    · rw [h]
      simp [bytesLt_iff_lex]
    · rw [if_neg (by omega), if_pos h]
      refine iff_of_false Bool.false_ne_true ?_
      rintro (hc | ⟨hc, _⟩) <;> omega
  · rcases keyLt_total (sort_key b1) (sort_key b2) with h | h | h
    · exact Or.inl h
    · refine Or.inr (Or.inl ?_)
      have h2 := congrArg Prod.snd h
      simpa [sort_key] using h2
    · exact Or.inr (Or.inr h)

/-- Witness for C5 at the buffers [0], [0,0], [1]. -/
theorem fuzz_c5_sort_key_order_witness :
    (keyLt (sort_key [0]) (sort_key [0, 0]) = true ↔
      ([0] : List ℕ).length < ([0, 0] : List ℕ).length ∨
        (([0] : List ℕ).length = ([0, 0] : List ℕ).length ∧
          List.Lex (· < ·) ([0] : List ℕ) [0, 0])) ∧
    (keyLt (sort_key [0]) (sort_key [0, 0]) = true ∨ ([0] : List ℕ) = [0, 0] ∨
      keyLt (sort_key [0, 0]) (sort_key [0]) = true) ∧
    (keyLt (sort_key [0]) (sort_key [0, 0]) = true →
      keyLt (sort_key [0, 0]) (sort_key [1]) = true →
      keyLt (sort_key [0]) (sort_key [1]) = true) ∧
    keyLt (sort_key [0]) (sort_key [0]) = false :=
  fuzz_c5_sort_key_order [0] [0, 0] [1]

/-- C6: the estimated value of the next run is exactly
`1 / (1 + trialsSoFar - lastNewCoverageAt)`; whenever
`lastNewCoverageAt ≤ trialsSoFar` it lies in (0, 1] and equals 1 exactly when
no trial has passed since the last novelty; it strictly decreases as the
novelty-free gap grows; and it is 1 immediately after a novel-coverage
`run_one`. -/
theorem fuzz_c6_value_estimate (s s2 s' : FuzzProcess) (o : RandomOracle)
    (r : ConjectureResult)
    (h1 : s.last_new_cov_at ≤ s.ninputs) (h2 : s2.last_new_cov_at ≤ s2.ninputs) :
    estimated_value_of_next_run s
        = 1 / (1 + (s.ninputs : ℚ) - (s.last_new_cov_at : ℚ)) ∧
    (0 < estimated_value_of_next_run s ∧ estimated_value_of_next_run s ≤ 1) ∧
    (estimated_value_of_next_run s = 1 ↔ s.ninputs = s.last_new_cov_at) ∧
    (s.ninputs - s.last_new_cov_at < s2.ninputs - s2.last_new_cov_at →
      estimated_value_of_next_run s2 < estimated_value_of_next_run s) ∧
    (Status.toNat Status.overrun < Status.toNat r.status →
      (computeNovelty s r).Nonempty →
      run_one s o r = some s' →
      estimated_value_of_next_run s' = 1) := by
  have hc : ((s.last_new_cov_at : ℚ)) ≤ (s.ninputs : ℚ) := by exact_mod_cast h1
  have hd : (0 : ℚ) < 1 + (s.ninputs : ℚ) - (s.last_new_cov_at : ℚ) := by linarith
  refine ⟨rfl, ⟨?_, ?_⟩, ?_, ?_, ?_⟩
  · exact div_pos one_pos hd
  · rw [estimated_value_of_next_run, div_le_one hd]
    linarith
  · rw [estimated_value_of_next_run]
    constructor
    · intro h
      rw [div_eq_one_iff_eq (by linarith)] at h
      have : (s.ninputs : ℚ) = (s.last_new_cov_at : ℚ) := by linarith
      exact_mod_cast this
    · intro h
      rw [h]
      have e : (1 : ℚ) + (s.last_new_cov_at : ℚ) - (s.last_new_cov_at : ℚ) = 1 := by
        ring
      rw [e]
      norm_num
  · intro hk
    have hc2 : ((s2.last_new_cov_at : ℚ)) ≤ (s2.ninputs : ℚ) := by exact_mod_cast h2
    unfold estimated_value_of_next_run
    have e1 : (1 : ℚ) + (s.ninputs : ℚ) - (s.last_new_cov_at : ℚ)
        = 1 + ((s.ninputs - s.last_new_cov_at : ℕ) : ℚ) := by
      rw [Nat.cast_sub h1]
      ring
    have e2 : (1 : ℚ) + (s2.ninputs : ℚ) - (s2.last_new_cov_at : ℚ)
        = 1 + ((s2.ninputs - s2.last_new_cov_at : ℕ) : ℚ) := by
      rw [Nat.cast_sub h2]
      ring
    rw [e1, e2]
    apply one_div_lt_one_div_of_lt
    · positivity
    · have hcast : ((s.ninputs - s.last_new_cov_at : ℕ) : ℚ)
          < ((s2.ninputs - s2.last_new_cov_at : ℕ) : ℚ) := by exact_mod_cast hk
      linarith
  · intro hgate hnov hrun
    by_cases hpool : s.pool = []
    · unfold run_one at hrun
      rw [if_pos hpool] at hrun
      cases hrun
    · rw [run_one_update_eq hpool hgate] at hrun
      have hfields := genNext_fields { s with ninputs := s.ninputs + 1 } o
      have hmin : (genNext { s with ninputs := s.ninputs + 1 } o).2.minimal_example_arcs
          = s.minimal_example_arcs := hfields.2.2.2.1
      have hseen : (genNext { s with ninputs := s.ninputs + 1 } o).2.seen_arcs
          = s.seen_arcs := hfields.2.2.1
      have hcong := computeNovelty_congr hmin hseen r
      have hnovt : (computeNovelty (genNext { s with ninputs := s.ninputs + 1 } o).2
          r).Nonempty := by
        rw [hcong]
        exact hnov
      obtain ⟨hlast, hnin⟩ :=
        update_novelty_reset hrun (status_ne_overrun_of_gate hgate) hnovt
      unfold estimated_value_of_next_run
      rw [hlast, hnin, add_sub_cancel_right]
      norm_num

/-- Witness for C6: a target at trial 3 with last novelty at trial 1 has an
estimated value in (0, 1]. -/
theorem fuzz_c6_value_estimate_witness :
    (c6s.last_new_cov_at ≤ c6s.ninputs ∧ c6s2.last_new_cov_at ≤ c6s2.ninputs) ∧
    (0 < estimated_value_of_next_run c6s ∧ estimated_value_of_next_run c6s ≤ 1) :=
  ⟨⟨by decide, by decide⟩,
    (fuzz_c6_value_estimate c6s c6s2 c6sAfter default c6r (by decide)
      (by decide)).2.1⟩

/-- C7 counterexample: an INVALID result with a novel arc does update the
pool and the seen-arcs counter, contrary to the claim that INVALID results
are discarded with no pool or coverage update. -/
theorem fuzz_c7_invalid_counterexample :
    c7r.status = Status.invalid ∧
    freshState.pool.length = 1 ∧
    (run_one freshState default c7r).map (fun t => t.pool.length) = some 2 ∧
    freshState.seen_arcs = 0 ∧
    (run_one freshState default c7r).map (fun t => t.seen_arcs)
      = some ({1} : Multiset Arc) := by
  exact ⟨rfl, rfl, by decide, rfl, by decide⟩

/-- C7 (amended): an INVALID result still counts toward the trial counter and
is never recorded as interesting, but it receives the same coverage, pool and
fuzz-key persistence updates as a VALID result. -/
theorem fuzz_c7_invalid_amended (s : FuzzProcess) (db : ExampleDatabase)
    (o : RandomOracle) (r : ConjectureResult)
    (hpool : s.pool ≠ []) (hdb : s.database = some db)
    (hst : r.status = Status.invalid) :
    ∃ t, run_one s o r = some t ∧
      t.ninputs = s.ninputs + 1 ∧
      t.interesting_examples = s.interesting_examples ∧
      t.pool = (if (computeNovelty s r).Nonempty then poolAdd r s.pool else s.pool) ∧
      t.seen_arcs.toFinset = s.seen_arcs.toFinset ∪ computeNovelty s r ∧
      t.database = some (if (computeNovelty s r).Nonempty
                         then dbSaveFuzz db r.buffer else db) ∧
      t.last_new_cov_at = (if (computeNovelty s r).Nonempty
                           then s.ninputs + 1 else s.last_new_cov_at) := by
  have hgate : Status.toNat Status.overrun < Status.toNat r.status := by
    rw [hst]
    decide
  have hni : r.status ≠ Status.interesting := by
    rw [hst]
    intro hc
    cases hc
  have hstne : r.status ≠ Status.overrun := status_ne_overrun_of_gate hgate
  rw [run_one_update_eq hpool hgate]
  have hfields := genNext_fields { s with ninputs := s.ninputs + 1 } o
  have hmin : (genNext { s with ninputs := s.ninputs + 1 } o).2.minimal_example_arcs
      = s.minimal_example_arcs := hfields.2.2.2.1
  have hseen : (genNext { s with ninputs := s.ninputs + 1 } o).2.seen_arcs
      = s.seen_arcs := hfields.2.2.1
  have hmap : (genNext { s with ninputs := s.ninputs + 1 } o).2.interesting_examples
      = s.interesting_examples := hfields.2.1
  have hnin : (genNext { s with ninputs := s.ninputs + 1 } o).2.ninputs
      = s.ninputs + 1 := hfields.2.2.2.2.1
  have hlast : (genNext { s with ninputs := s.ninputs + 1 } o).2.last_new_cov_at
      = s.last_new_cov_at := hfields.2.2.2.2.2.1
  have hpl : (genNext { s with ninputs := s.ninputs + 1 } o).2.pool
      = s.pool := hfields.2.2.2.2.2.2
  have hdbt : (genNext { s with ninputs := s.ninputs + 1 } o).2.database
      = some db := by
    have h0 : (genNext { s with ninputs := s.ninputs + 1 } o).2.database
        = s.database := hfields.1
    rw [h0, hdb]
  have hcong := computeNovelty_congr hmin hseen r
  refine ⟨_, update_eq _ db r hdbt hstne, ?_, ?_, ?_, ?_, ?_, ?_⟩
  · exact hnin
  · show (if r.status = Status.interesting then _ else
        (genNext { s with ninputs := s.ninputs + 1 } o).2.interesting_examples)
        = s.interesting_examples
    rw [if_neg hni]
    exact hmap
  · show (if (computeNovelty (genNext { s with ninputs := s.ninputs + 1 } o).2
        r).Nonempty
        then poolAdd r (genNext { s with ninputs := s.ninputs + 1 } o).2.pool
        else (genNext { s with ninputs := s.ninputs + 1 } o).2.pool)
        = _
    rw [hcong, hpl]
  · show ((genNext { s with ninputs := s.ninputs + 1 } o).2.seen_arcs +
        (symmDiffArcs
          (genNext { s with ninputs := s.ninputs + 1 } o).2.minimal_example_arcs
          r.arcs).val).toFinset = _
    rw [seen_toFinset_union, hseen, hcong]
  · show some (if r.status = Status.interesting ∧ _ then _ else
        (if (computeNovelty (genNext { s with ninputs := s.ninputs + 1 } o).2
            r).Nonempty
         then dbSaveFuzz db r.buffer else db)) = _
    rw [if_neg (fun hc => hni hc.1), hcong]
  · show (if (computeNovelty (genNext { s with ninputs := s.ninputs + 1 } o).2
        r).Nonempty
        then (genNext { s with ninputs := s.ninputs + 1 } o).2.ninputs
        else (genNext { s with ninputs := s.ninputs + 1 } o).2.last_new_cov_at)
        = _
    rw [hcong, hnin, hlast]

/-- Witness for C7 (amended): the INVALID result with novel arc 1 run on a
fresh target. -/
theorem fuzz_c7_invalid_amended_witness :
    (freshState.pool ≠ [] ∧ freshState.database = some emptyDb ∧
      c7r.status = Status.invalid) ∧
    ∃ t, run_one freshState default c7r = some t ∧
      t.ninputs = freshState.ninputs + 1 ∧
      t.interesting_examples = freshState.interesting_examples ∧
      t.pool = (if (computeNovelty freshState c7r).Nonempty
                then poolAdd c7r freshState.pool else freshState.pool) ∧
      t.seen_arcs.toFinset
        = freshState.seen_arcs.toFinset ∪ computeNovelty freshState c7r ∧
      t.database = some (if (computeNovelty freshState c7r).Nonempty
                         then dbSaveFuzz emptyDb c7r.buffer else emptyDb) ∧
      t.last_new_cov_at = (if (computeNovelty freshState c7r).Nonempty
                           then freshState.ninputs + 1
                           else freshState.last_new_cov_at) :=
  ⟨⟨by decide, rfl, rfl⟩,
    fuzz_c7_invalid_amended freshState emptyDb default c7r (by decide) rfl rfl⟩

/-- C8 (code bug): with no database configured at all, a coverage-novel
result makes `_update` (and hence `run_one`) raise instead of functioning
for discovery: hy.py line 325 calls `self._database.save` without the
None-guard that line 336 has. -/
theorem fuzz_c8_no_database_crash :
    c8s.database = none ∧
    Status.toNat Status.overrun < Status.toNat c6r.status ∧
    (computeNovelty c8s c6r).Nonempty ∧
    update c8s c6r = none ∧
    run_one c8s default c6r = none := by
  exact ⟨rfl, by decide, by decide, by decide, by decide⟩

/-- C9: every `run_one` call increments the trial counter by exactly one,
and an OVERRUN result leaves the pool, seen arcs, interesting-examples map,
last-new-coverage index and database untouched. -/
theorem fuzz_c9_counter_frame (s : FuzzProcess) (o : RandomOracle)
    (r : ConjectureResult) (hpool : s.pool ≠ []) :
    (∀ t, run_one s o r = some t → t.ninputs = s.ninputs + 1) ∧
    (r.status = Status.overrun →
      ∃ t, run_one s o r = some t ∧ t.ninputs = s.ninputs + 1 ∧
        t.pool = s.pool ∧ t.seen_arcs = s.seen_arcs ∧
        t.interesting_examples = s.interesting_examples ∧
        t.last_new_cov_at = s.last_new_cov_at ∧
        t.database = s.database ∧
        t.minimal_example_arcs = s.minimal_example_arcs) := by
  constructor
  · intro t ht
    exact (run_one_fields ht).1
  · intro hov
    have hfields := genNext_fields { s with ninputs := s.ninputs + 1 } o
    refine ⟨_, run_one_overrun_eq hpool hov, ?_, ?_, ?_, ?_, ?_, ?_, ?_⟩
    · exact hfields.2.2.2.2.1
    · exact hfields.2.2.2.2.2.2
    · exact hfields.2.2.1
    · exact hfields.2.1
    · exact hfields.2.2.2.2.2.1
    · exact hfields.1
    · exact hfields.2.2.2.1

/-- Witness for C9: an OVERRUN result on a fresh target increments only the
counter. -/
theorem fuzz_c9_counter_frame_witness :
    (freshState.pool ≠ [] ∧ exOverrun.status = Status.overrun) ∧
    ∃ t, run_one freshState default exOverrun = some t ∧
      t.ninputs = freshState.ninputs + 1 ∧
      t.pool = freshState.pool ∧ t.seen_arcs = freshState.seen_arcs ∧
      t.interesting_examples = freshState.interesting_examples ∧
      t.last_new_cov_at = freshState.last_new_cov_at ∧
      t.database = freshState.database ∧
      t.minimal_example_arcs = freshState.minimal_example_arcs :=
  ⟨⟨by decide, rfl⟩,
    (fuzz_c9_counter_frame freshState default exOverrun (by decide)).2 rfl⟩

/-- C3 counterexample: after the ten-byte then the four-byte INTERESTING
results for origin 0, the map stores the ten-byte buffer even though the
four-byte buffer is strictly smaller by sortKey — the stored buffer is not
the smallest seen for the origin. -/
theorem fuzz_c3_interesting_map_counterexample :
    exStep10.result.status = Status.interesting ∧
    exStep4.result.status = Status.interesting ∧
    exStep10.result.interesting_origin = 0 ∧
    exStep4.result.interesting_origin = 0 ∧
    exStep4.result.buffer = exB4 ∧
    keyLt (sort_key exB4) (sort_key exB10) = true ∧
    (runAll freshState [exStep10, exStep4]).map
      (fun t => t.interesting_examples) = some [(0, exB10)] := by
  exact ⟨rfl, rfl, rfl, rfl, rfl, by decide, by decide⟩

/-- C3 (amended): after any sequence of `run_one` calls from a state with an
empty interesting-examples map, the map has one entry per distinct origin
observed (no duplicate keys), and the buffer stored for each origin is the
buffer of the FIRST INTERESTING result observed for that origin. -/
theorem fuzz_c3_interesting_map_amended (s s' : FuzzProcess)
    (steps : List RunStep) (hstart : s.interesting_examples = [])
    (h : runAll s steps = some s') :
    (s'.interesting_examples.map Prod.fst).Nodup ∧
    ∀ j, s'.interesting_examples.lookup j = firstInterestingBuffer steps j := by
  constructor
  · refine runAll_nodup h ?_
    rw [hstart]
    simp
  · intro j
    rw [runAll_lookup h j, hstart]
    exact orElseO_none_left _

/-- Witness for C3 (amended): the two-failure sequence on a fresh target. -/
theorem fuzz_c3_interesting_map_amended_witness :
    (freshState.interesting_examples = [] ∧
      runAll freshState [exStep10, exStep4] = some c3After) ∧
    (c3After.interesting_examples.map Prod.fst).Nodup ∧
    ∀ j, c3After.interesting_examples.lookup j
      = firstInterestingBuffer [exStep10, exStep4] j :=
  ⟨⟨rfl, by decide⟩,
    fuzz_c3_interesting_map_amended freshState c3After [exStep10, exStep4] rfl
      (by decide)⟩

/-- C4 counterexample: with buffer [0,0] under the primary key and [0] under
the fuzz key, the replay queue after startup is [[0,0],[0]] (sortKey
descending), but the first generator call returns [0] — the strictly smaller
buffer — so the drain order is not largest-first. -/
theorem fuzz_c4_replay_counterexample :
    (startup c4State c4First).map (fun t => t.replay_buffer)
      = some [[0, 0], [0]] ∧
    (startup c4State c4First).map (fun t => (genNext t default).1)
      = some [0] ∧
    keyLt (sort_key [0]) (sort_key [0, 0]) = true := by
  exact ⟨by decide, by decide, by decide⟩

/-- C4 (amended): after startup the replay queue is the union of the buffers
fetched under the primary and fuzz keys sorted by sortKey descending; each
generator call with a non-empty queue pops and returns the entry at the END
of the queue, which is its minimum by sortKey — so the SMALLEST buffers are
returned first. -/
theorem fuzz_c4_replay_amended (s s' : FuzzProcess) (fr : ConjectureResult)
    (db2 : ExampleDatabase) (h : startup s fr = some s')
    (hdb : s'.database = some db2) :
    s'.replay_buffer = sortDesc (fetchUnion db2) ∧
    (∀ (t : FuzzProcess) (o : RandomOracle) (m : List ℕ),
      t.replay_buffer.getLast? = some m →
      genNext t o = (m, { t with replay_buffer := t.replay_buffer.dropLast })) ∧
    (∀ m, s'.replay_buffer.getLast? = some m →
      ∀ x ∈ s'.replay_buffer, keyLe (sort_key m) (sort_key x) = true) := by
  have key : s'.replay_buffer = sortDesc (fetchUnion db2) := by
    by_cases hpool : s.pool = []
    · cases hu :
          update
            { s with
              minimal_example_arcs := fr.arcs,
              ninputs := s.ninputs + 1,
              pool := poolAdd fr s.pool }
            fr with
      | none =>
        have hnone : startup s fr = none := by
          simp only [startup, if_pos hpool, hu]
        rw [hnone] at h
        cases h
      | some s3 =>
        cases hdb3 : s3.database with
        | none =>
          have heq : startup s fr = some s3 := by
            simp only [startup, if_pos hpool, hu, hdb3]
          rw [heq] at h
          injection h with h2
          subst h2
          rw [hdb3] at hdb
          cases hdb
        | some db3 =>
          have heq : startup s fr
              = some { s3 with replay_buffer := sortDesc (fetchUnion db3) } := by
            simp only [startup, if_pos hpool, hu, hdb3]
          rw [heq] at h
          injection h with h2
          subst h2
          have h4 : s3.database = some db2 := hdb
          rw [hdb3] at h4
          injection h4 with h5
          show sortDesc (fetchUnion db3) = sortDesc (fetchUnion db2)
          rw [h5]
    · have hnone : startup s fr = none := by
        simp only [startup, if_neg hpool]
      rw [hnone] at h
      cases h
  refine ⟨key, ?_, ?_⟩
  · intro t o m hm
    exact genNext_replay hm
  · intro m hm x hx
    have hsorted : DescSorted s'.replay_buffer := by
      rw [key]
      exact sortDesc_sorted _
    exact getLast_min hsorted hm x hx

/-- Witness for C4 (amended): the concrete startup with [0,0] and [0]. -/
theorem fuzz_c4_replay_amended_witness :
    (startup c4State c4First = some c4After ∧
      c4After.database = some { primarySaves := [[0, 0]], fuzzSaves := [[0]] }) ∧
    c4After.replay_buffer
      = sortDesc (fetchUnion { primarySaves := [[0, 0]], fuzzSaves := [[0]] }) :=
  ⟨⟨by decide, by decide⟩,
    (fuzz_c4_replay_amended c4State c4After c4First
      { primarySaves := [[0, 0]], fuzzSaves := [[0]] } (by decide) (by decide)).1⟩

end Hypofuzz
